import Mathlib

/-!
# Verification of the bot-dashboard timer/notification core

A shallow embedding of `bot_worker.py` (class `CloudBot`): the remote-state
merge, the spawn predictor, the agenda sort, the sync-loop driver, and the
(stubbed in the source, hence spec-modelled) notification/purge engine.

Conventions of the embedding:
* Python dicts coming from JSON are association lists `List (String × JVal)`;
  `JVal.jother n` stands for any non-string JSON value, opaquely; its tag
  encodes its Python truthiness (`0` = falsy) and its `str()` rendering is
  wrapped in guillemets, which can never begin a digit — mirroring the fact
  that no non-string JSON value `str()`s to a string accepted by
  `strptime("%Y-%m-%d %H:%M")` in full.
* Raised-and-not-caught exceptions (`KeyError`, `AttributeError`) are `none`
  in an `Option`-valued embedding; exceptions the source catches are ordinary
  branches.
* `datetime` values are records of numeric fields; comparisons are the
  field-lexicographic order Python uses (second-level granularity for
  `now.time()`).
-/

namespace BotWorker

/-- A JSON-ish Python value as stored in the bot's dict-shaped records.
`jstr` is a string; `jother n` abstracts every non-string value, with `n`
encoding its truthiness (`0` = falsy). -/
inductive JVal where
  | jstr : String → JVal
  | jother : Nat → JVal
deriving DecidableEq, Repr

/-- A Python dict as an association list (JSON objects have unique keys;
lookup takes the first binding). -/
abbrev PyDict := List (String × JVal)

/-- `d.get(k)`: first binding for `k`, if any. -/
def lookupRec : PyDict → String → Option JVal
  | [], _ => none
  | (k', v) :: r, k => if k' = k then some v else lookupRec r k

/-- Python truthiness of `d.get(k)`: `None` and `""` are falsy; for opaque
non-string values the tag carries the truthiness. -/
def truthy : Option JVal → Bool
  | none => false
  | some (.jstr s) => !(s = "")
  | some (.jother n) => !(n = 0)

/-- `str(v)` as used by the f-string `f"{t['date']} {t['time']}"`.  The
rendering of an opaque non-string value starts with a guillemet, never a
digit, so it can never parse under the fixed date format — faithful to the
fact that `str()` of a JSON non-string never fully matches `%Y-%m-%d %H:%M`. -/
def JVal.pyStr : JVal → String
  | .jstr s => s
  | .jother n => "«" ++ toString n ++ "»"

/-- `{**a, **b}`: `a`'s keys in order with `b`'s values winning on conflict,
then `b`'s new keys. -/
def pyMerge (a b : PyDict) : PyDict :=
  a.map (fun kv => (kv.1, (lookupRec b kv.1).getD kv.2))
    ++ b.filter (fun kv => (lookupRec a kv.1).isNone)

/-! ## Dates and times (`datetime.date` / `datetime.datetime`) -/

/-- `datetime.date`: named numeric fields. -/
structure Date where
  year : Nat
  month : Nat
  day : Nat
deriving DecidableEq, Repr

/-- A wall-clock date + time to minute precision (the precision produced by
`strptime("%Y-%m-%d %H:%M")`). -/
structure DateTime where
  date : Date
  hour : Nat
  minute : Nat
deriving DecidableEq, Repr

/-- A time-of-day to second precision, for the `now.time() > time(h, m)`
comparison in `set_fixed_timers_dates`. -/
structure TimeOfDay where
  hour : Nat
  minute : Nat
  second : Nat
deriving DecidableEq, Repr

/-- Python `time` comparison: lexicographic on (hour, minute, second). -/
def TimeOfDay.gtb (a b : TimeOfDay) : Bool :=
  decide (b.hour < a.hour ∨ (b.hour = a.hour ∧
    (b.minute < a.minute ∨ (b.minute = a.minute ∧ b.second < a.second))))

/-- Python `datetime` comparison (`sorted` key order): lexicographic on
(year, month, day, hour, minute). -/
def DateTime.leb (a b : DateTime) : Bool :=
  decide (a.date.year < b.date.year ∨ (a.date.year = b.date.year ∧
    (a.date.month < b.date.month ∨ (a.date.month = b.date.month ∧
      (a.date.day < b.date.day ∨ (a.date.day = b.date.day ∧
        (a.hour < b.hour ∨ (a.hour = b.hour ∧ a.minute ≤ b.minute))))))))

/-- Gregorian leap year, as `calendar.isleap` / `datetime` use it. -/
def isLeap (y : Nat) : Bool :=
  (y % 4 == 0 && y % 100 != 0) || y % 400 == 0

/-- Days in a month, as validated by the `datetime` constructor. -/
def daysInMonth (y m : Nat) : Nat :=
  if m = 2 then (if isLeap y then 29 else 28)
  else if m = 4 ∨ m = 6 ∨ m = 9 ∨ m = 11 then 30
  else 31

/-- The ranges the `datetime.datetime` constructor accepts. -/
def ValidDT (dt : DateTime) : Prop :=
  1 ≤ dt.date.year ∧ dt.date.year ≤ 9999 ∧
  1 ≤ dt.date.month ∧ dt.date.month ≤ 12 ∧
  1 ≤ dt.date.day ∧ dt.date.day ≤ daysInMonth dt.date.year dt.date.month ∧
  dt.hour ≤ 23 ∧ dt.minute ≤ 59

instance (dt : DateTime) : Decidable (ValidDT dt) := by
  unfold ValidDT; infer_instance

/-- The ranges the `datetime.date` constructor accepts. -/
def ValidDate (d : Date) : Prop :=
  1 ≤ d.year ∧ d.year ≤ 9999 ∧ 1 ≤ d.month ∧ d.month ≤ 12 ∧
  1 ≤ d.day ∧ d.day ≤ daysInMonth d.year d.month

instance (d : Date) : Decidable (ValidDate d) := by
  unfold ValidDate; infer_instance

/-- `today + timedelta(days=1)`: calendar successor. -/
def nextDay (d : Date) : Date :=
  if d.day < daysInMonth d.year d.month then ⟨d.year, d.month, d.day + 1⟩
  else if d.month < 12 then ⟨d.year, d.month + 1, 1⟩
  else ⟨d.year + 1, 1, 1⟩

/-! ## `strptime(s, "%Y-%m-%d %H:%M")` and `strftime`

CPython's `_strptime` compiles the format to the regex
`(?P<Y>\d\d\d\d)\-(?P<m>1[0-2]|0[1-9]|[1-9])\-(?P<d>3[01]|[12]\d|0[1-9]|[1-9]) (?P<H>2[0-3]|[0-1]\d|\d)\:(?P<M>[0-5]\d|\d)`,
requires the whole string to be consumed, and then the `datetime` constructor
validates ranges (raising `ValueError` on e.g. Feb 30).  Each alternation
below is committed in regex order; since every two-character alternative
requires a digit in the second position while the following literal is a
non-digit, commitment agrees with backtracking. -/

/-- The digit character for `n < 10`. -/
def digCh (n : Nat) : Char := Char.ofNat (48 + n)

/-- Is `c` an ASCII digit? -/
def isDig (c : Char) : Bool := 48 ≤ c.toNat && c.toNat ≤ 57

/-- Numeric value of an ASCII digit. -/
def digVal (c : Char) : Nat := c.toNat - 48

/-- `%02d`. -/
def pad2 (n : Nat) : List Char := [digCh (n / 10 % 10), digCh (n % 10)]

/-- `%04d` (for years up to 9999). -/
def pad4 (n : Nat) : List Char :=
  [digCh (n / 1000 % 10), digCh (n / 100 % 10), digCh (n / 10 % 10), digCh (n % 10)]

/-- `%Y`: exactly four digits. -/
def parseY : List Char → Option (Nat × List Char)
  | c1 :: c2 :: c3 :: c4 :: rest =>
    if isDig c1 && isDig c2 && isDig c3 && isDig c4 then
      some (digVal c1 * 1000 + digVal c2 * 100 + digVal c3 * 10 + digVal c4, rest)
    else none
  | _ => none

/-- `%m`: `1[0-2]|0[1-9]|[1-9]`. -/
def parseMonth : List Char → Option (Nat × List Char)
  | c1 :: c2 :: rest =>
    if c1 = '1' && ('0' ≤ c2 && c2 ≤ '2') then some (10 + digVal c2, rest)
    else if c1 = '0' && ('1' ≤ c2 && c2 ≤ '9') then some (digVal c2, rest)
    else if '1' ≤ c1 && c1 ≤ '9' then some (digVal c1, c2 :: rest)
    else none
  | [c1] => if '1' ≤ c1 && c1 ≤ '9' then some (digVal c1, []) else none
  | [] => none

/-- `%d`: `3[01]|[12]\d|0[1-9]|[1-9]`. -/
def parseDay : List Char → Option (Nat × List Char)
  | c1 :: c2 :: rest =>
    if c1 = '3' && ('0' ≤ c2 && c2 ≤ '1') then some (30 + digVal c2, rest)
    else if ('1' ≤ c1 && c1 ≤ '2') && isDig c2 then some (digVal c1 * 10 + digVal c2, rest)
    else if c1 = '0' && ('1' ≤ c2 && c2 ≤ '9') then some (digVal c2, rest)
    else if '1' ≤ c1 && c1 ≤ '9' then some (digVal c1, c2 :: rest)
    else none
  | [c1] => if '1' ≤ c1 && c1 ≤ '9' then some (digVal c1, []) else none
  | [] => none

/-- `%H`: `2[0-3]|[0-1]\d|\d`. -/
def parseHour : List Char → Option (Nat × List Char)
  | c1 :: c2 :: rest =>
    if c1 = '2' && ('0' ≤ c2 && c2 ≤ '3') then some (20 + digVal c2, rest)
    else if ('0' ≤ c1 && c1 ≤ '1') && isDig c2 then some (digVal c1 * 10 + digVal c2, rest)
    else if isDig c1 then some (digVal c1, c2 :: rest)
    else none
  | [c1] => if isDig c1 then some (digVal c1, []) else none
  | [] => none

/-- `%M`: `[0-5]\d|\d`. -/
def parseMin : List Char → Option (Nat × List Char)
  | c1 :: c2 :: rest =>
    if ('0' ≤ c1 && c1 ≤ '5') && isDig c2 then some (digVal c1 * 10 + digVal c2, rest)
    else if isDig c1 then some (digVal c1, c2 :: rest)
    else none
  | [c1] => if isDig c1 then some (digVal c1, []) else none
  | [] => none

/-- A literal character of the format string. -/
def expectCh (c : Char) : List Char → Option (List Char)
  | c' :: r => if c' = c then some r else none
  | [] => none

/-- `strptime(s, "%Y-%m-%d %H:%M")` on a character list: regex match of the
whole string, then `datetime` range validation. -/
def parseDTChars (s : List Char) : Option DateTime := do
  let (y, r1) ← parseY s
  let r1 ← expectCh '-' r1
  let (mo, r2) ← parseMonth r1
  let r2 ← expectCh '-' r2
  let (d, r3) ← parseDay r2
  let r3 ← expectCh ' ' r3
  let (h, r4) ← parseHour r3
  let r4 ← expectCh ':' r4
  let (mi, r5) ← parseMin r4
  if r5 = [] ∧ ValidDT ⟨⟨y, mo, d⟩, h, mi⟩ then some ⟨⟨y, mo, d⟩, h, mi⟩ else none

/-- `datetime.strptime(s, "%Y-%m-%d %H:%M")`, `ValueError` as `none`. -/
def parseDateTime (s : String) : Option DateTime := parseDTChars s.data

/-- `date.strftime("%Y-%m-%d")`. -/
def fmtDate (d : Date) : String := ⟨pad4 d.year ++ '-' :: pad2 d.month ++ '-' :: pad2 d.day⟩

/-- The canonical `HH:MM` rendering of a time-of-day. -/
def fmtTimeHM (h mi : Nat) : String := ⟨pad2 h ++ ':' :: pad2 mi⟩

/-- The canonical `YYYY-MM-DD HH:MM` rendering of a `DateTime`. -/
def fmtDateTime (dt : DateTime) : String :=
  fmtDate dt.date ++ " " ++ fmtTimeHM dt.hour dt.minute

/-! ## Spawn predictor and agenda: `refresh_timers` (lines 141–156) -/

/-- The source's "to be confirmed" sentinel string (`"待確認"`). -/
def unconfirmedSentinel : String := "待確認"

/-- A confirmed prediction `{**t, "spawn_dt": dt}` (the `spawn_dt` key holds a
`datetime`, not a JSON value, so it is a separate field here). -/
structure ConfirmedPred where
  entry : PyDict
  spawn_dt : DateTime
deriving DecidableEq, Repr

/-- The `sorted(..., key=lambda x: x["spawn_dt"])` comparison. -/
def predLeb (a b : ConfirmedPred) : Bool := DateTime.leb a.spawn_dt b.spawn_dt

/-- One floating record in `refresh_timers`' first loop: the sentinel/date
guard, then `strptime` on `f"{t['date']} {t['time']}"` with
`ValueError`/`TypeError` caught (→ unconfirmed).  `none` models the uncaught
`KeyError` when the guard passes but the `time` key is absent. -/
def classifyFloating (t : PyDict) : Option (ConfirmedPred ⊕ PyDict) :=
  if lookupRec t "time" ≠ some (.jstr unconfirmedSentinel) ∧ truthy (lookupRec t "date") then
    match lookupRec t "date", lookupRec t "time" with
    | some dv, some tv =>
      match parseDateTime (dv.pyStr ++ " " ++ tv.pyStr) with
      | some dt => some (Sum.inl ⟨t, dt⟩)
      | none => some (Sum.inr t)
    | _, _ => none
  else some (Sum.inr t)

/-- One fixed record in `refresh_timers`' second loop: `strptime` with
`ValueError`/`TypeError` caught; `none` models an uncaught `KeyError`. -/
def classifyFixed (t : PyDict) : Option (ConfirmedPred ⊕ PyDict) :=
  match lookupRec t "date", lookupRec t "time" with
  | some dv, some tv =>
    match parseDateTime (dv.pyStr ++ " " ++ tv.pyStr) with
    | some dt => some (Sum.inl ⟨t, dt⟩)
    | none => some (Sum.inr t)
  | _, _ => none

/-- Run one of the two classification loops, accumulating the confirmed and
unconfirmed lists in input order; `none` aborts the whole run (uncaught
exception). -/
def classifyList (step : PyDict → Option (ConfirmedPred ⊕ PyDict)) :
    List PyDict → Option (List ConfirmedPred × List PyDict)
  | [] => some ([], [])
  | t :: ts =>
    match step t with
    | none => none
    | some r =>
      match classifyList step ts with
      | none => none
      | some (c, u) =>
        match r with
        | .inl cr => some (cr :: c, u)
        | .inr ur => some (c, ur :: u)

/-- The `confirmed`/`unconfirmed` lists of `refresh_timers` just before the
sort: floating records first, then the dated fixed records. -/
def refreshLists (floating fixedWD : List PyDict) :
    Option (List ConfirmedPred × List PyDict) :=
  match classifyList classifyFloating floating, classifyList classifyFixed fixedWD with
  | some (c1, u1), some (c2, u2) => some (c1 ++ c2, u1 ++ u2)
  | _, _ => none

/-- `refresh_timers`' final state: `sorted_timers_data` (Python's `sorted` is
a stable sort, embedded as `List.mergeSort`, which is extensionally the same
stable sort) together with the retained unconfirmed records. -/
def refreshTimersModel (floating fixedWD : List PyDict) :
    Option (List ConfirmedPred × List PyDict) :=
  (refreshLists floating fixedWD).map (fun cu => (cu.1.mergeSort predLeb, cu.2))

/-! ## Fixed-timer anchoring: `set_fixed_timers_dates` (lines 162–174) -/

/-- Whitespace as stripped by Python `int()`. -/
def isPySpace (c : Char) : Bool :=
  c = ' ' ∨ c = '\t' ∨ c = '\n' ∨ c = '\r' ∨ c = '\x0b' ∨ c = '\x0c'

/-- Strip `int()`-style whitespace from both ends. -/
def pyStrip (l : List Char) : List Char :=
  ((l.dropWhile isPySpace).reverse.dropWhile isPySpace).reverse

/-- Digits-to-value accumulator. -/
def digitsVal (l : List Char) : Nat := l.foldl (fun a c => a * 10 + digVal c) 0

/-- Python `int(s)`: optional surrounding whitespace, optional sign, one or
more ASCII digits; anything else raises `ValueError` (`none`).  (Underscore
separators and non-ASCII digits, which CPython also accepts, are outside this
model.) -/
def pyInt (s : List Char) : Option Int :=
  match pyStrip s with
  | [] => none
  | c :: ds =>
    if c = '-' then (if ds ≠ [] ∧ ds.all isDig then some (-(digitsVal ds : Int)) else none)
    else if c = '+' then (if ds ≠ [] ∧ ds.all isDig then some (digitsVal ds) else none)
    else if (c :: ds).all isDig then some (digitsVal (c :: ds)) else none

/-- Python `s.split(sep)` for a one-character separator. -/
def splitChar (sep : Char) : List Char → List (List Char)
  | [] => [[]]
  | c :: cs =>
    if c = sep then [] :: splitChar sep cs
    else
      match splitChar sep cs with
      | [] => [[c]]
      | p :: ps => (c :: p) :: ps

/-- `set_fixed_timers_dates`' loop body on one timer.  `nowTod` and `today`
are `datetime.datetime.now().time()` and `datetime.date.today()`, taken at
the same instant.  `none` models any exception in the `try` (logged, timer
skipped): missing or non-string `time`, a split that does not unpack into
two `int`s, or an out-of-range `datetime.time(h, m)`. -/
def processFixed (nowTod : TimeOfDay) (today : Date) (timer : PyDict) : Option PyDict :=
  match lookupRec timer "time" with
  | some (.jstr ts) =>
    match splitChar ':' ts.data with
    | [hcs, mcs] =>
      match pyInt hcs, pyInt mcs with
      | some h, some m =>
        if 0 ≤ h ∧ h ≤ 23 ∧ 0 ≤ m ∧ m ≤ 59 then
          let anchor := if nowTod.gtb ⟨h.toNat, m.toNat, 0⟩ then nextDay today else today
          some (pyMerge timer [("date", .jstr (fmtDate anchor))])
        else none
      | _, _ => none
    | _ => none
  | _ => none

/-- `set_fixed_timers_dates`: the fixed-policy configs, each anchored to
today or tomorrow; timers whose processing raises are skipped. -/
def setFixedTimersDates (nowTod : TimeOfDay) (today : Date)
    (timersConfig : List PyDict) : List PyDict :=
  (timersConfig.filter (fun t => lookupRec t "type" = some (.jstr "fixed"))).filterMap
    (processFixed nowTod today)

/-! ## Remote-state merge: `update_timers_data_from_remote` (lines 126–134) -/

/-- Lookup in the remote observation map (keyed by the timer-id value). -/
def alookupJ : List (JVal × PyDict) → JVal → Option PyDict
  | [], _ => none
  | (k, v) :: r, k' => if k = k' then some v else alookupJ r k'

/-- `update_timers_data_from_remote`: one merged record per floating-policy
config, in catalog order — `{**timer_config, **remote_info}` where
`remote_info = remote_data.get(timer_id, {})`.  Fixed (and any other
non-floating) configs are skipped.  `none` models the uncaught `KeyError`
when a config lacks `type`, or a floating config lacks `id`. -/
def updateTimersDataFromRemote :
    List PyDict → List (JVal × PyDict) → Option (List PyDict)
  | [], _ => some []
  | c :: cs, remote =>
    match lookupRec c "type" with
    | none => none
    | some tv =>
      if tv = .jstr "floating" then
        match lookupRec c "id" with
        | none => none
        | some idv =>
          (updateTimersDataFromRemote cs remote).map
            (fun l => pyMerge c ((alookupJ remote idv).getD []) :: l)
      else updateTimersDataFromRemote cs remote

/-! ## Events: `update_events_data_from_remote` (lines 136–139) -/

/-- A decoded remote JSON payload: a dict, or any non-dict value. -/
inductive RemotePayload where
  | dict : PyDict → RemotePayload
  | nondict : Nat → RemotePayload
deriving DecidableEq, Repr

/-- Python `==` on dicts: content equality (same keys with equal values,
both ways). -/
def dictEquiv (a b : PyDict) : Bool :=
  (a.all fun kv => decide (lookupRec b kv.1 = lookupRec a kv.1)) &&
  (b.all fun kv => decide (lookupRec a kv.1 = lookupRec b kv.1))

/-- `update_events_data_from_remote`: replace `custom_events` only by a dict
payload that differs from the current value. -/
def updateEventsDataFromRemote (current : PyDict) (remote : RemotePayload) : PyDict :=
  match remote with
  | .dict d => if ¬ dictEquiv current d then d else current
  | .nondict _ => current

/-! ## Settings reload: `load_all_data_from_cloud` step 1 (lines 97–105) -/

/-- Outcome of `fetch_from_github("settings.json")`: a decoded dict, or any
of the failure paths (no repo, GitHub error, 404, decode error), all of
which return the caller's default. -/
inductive FetchOutcome where
  | ok : PyDict → FetchOutcome
  | failed : FetchOutcome
deriving DecidableEq, Repr

/-- `fetch_from_github(file_path)` with the default default (`{}`). -/
def fetchFromGithub (r : FetchOutcome) : PyDict :=
  match r with
  | .ok d => d
  | .failed => []

/-- The settings assignment of `load_all_data_from_cloud` (line 101):
`self.settings = self.fetch_from_github("settings.json")`.  The previous
in-memory settings are an argument so that their (non-)retention is
expressible. -/
def reloadSettings (_prev : PyDict) (r : FetchOutcome) : PyDict :=
  fetchFromGithub r

/-! ## Driver: `CloudBot.run` (lines 212–233) -/

/-- The driver state `run` threads through its while-loop. -/
structure DriverState where
  settings : PyDict
  lastDownload : Nat
deriving DecidableEq, Repr

/-- The observable steps of one loop iteration. -/
inductive DriverAction where
  | loadAllData
  | checkAllNotifications
  | logSkip
deriving DecidableEq, Repr

/-- One iteration of `run`'s while-loop.  `currentTime` is `time.time()`;
`loaded` is the settings that `load_all_data_from_cloud` would leave in
memory if the long cycle runs this iteration (a network oracle). -/
def runIteration (st : DriverState) (currentTime : Nat) (loaded : PyDict) :
    DriverState × List DriverAction :=
  let (st1, acts1) :=
    if currentTime - st.lastDownload ≥ 300 then
      ({ settings := loaded, lastDownload := currentTime }, [DriverAction.loadAllData])
    else (st, ([] : List DriverAction))
  if st1.settings ≠ [] then (st1, acts1 ++ [DriverAction.checkAllNotifications])
  else (st1, acts1 ++ [DriverAction.logSkip])

/-! ## Notification engine and purge (spec-modelled)

`check_timer_notifications` and `_cleanup_sent_notifications` are `pass`
stubs in the source ("PASTE FULL FUNCTION LOGIC FROM V445.py HERE"), so the
engine below is modelled from the spec, §4.4. -/

/-- A notification tier: label and lead-time threshold. -/
structure Tier where
  label : String
  threshold : Int
deriving DecidableEq, Repr

/-- A confirmed agenda entry as the engine sees it. -/
structure AgendaItem where
  timerId : String
  spawnTs : Int
  tiers : List Tier
deriving DecidableEq, Repr

/-- A dispatched-notification record entry: (timer id, spawn-instance key
derived from the spawn timestamp, tier label). -/
abbrev SentTriple := String × Int × String

/-- Modelled from the spec: one tier check of `NotificationEngine.evaluate`
(§4.4, stubbed `check_timer_notifications`): emit iff `0 ≤ lead ≤ threshold`
and the triple is not in the dispatched record; record the triple. -/
def tierStep (now : Int) (item : AgendaItem)
    (acc : List SentTriple × List SentTriple) (tier : Tier) :
    List SentTriple × List SentTriple :=
  let lead := item.spawnTs - now
  let trip : SentTriple := (item.timerId, item.spawnTs, tier.label)
  if 0 ≤ lead ∧ lead ≤ tier.threshold ∧ trip ∉ acc.2 then
    (acc.1 ++ [trip], trip :: acc.2)
  else acc

/-- Modelled from the spec: `NotificationEngine.evaluate` (§4.4, stubbed
`check_timer_notifications`): walk the agenda and each entry's tiers,
returning the emitted alerts and the updated dispatched record. -/
def evaluateAgenda (agenda : List AgendaItem) (now : Int)
    (alreadySent : List SentTriple) : List SentTriple × List SentTriple :=
  agenda.foldl (fun acc item => item.tiers.foldl (tierStep now item) acc)
    ([], alreadySent)

/-- Modelled from the spec: the purge step of `_cleanup_sent_notifications`
(stubbed): drop exactly the entries whose spawn-instance timestamp is more
than `grace` in the past. -/
def purgeSent (now grace : Int) (sent : List SentTriple) : List SentTriple :=
  sent.filter (fun t => decide (now - t.2.1 ≤ grace))

/-- Modelled from the spec: a sequence of evaluate calls with the
dispatched record carried forward (`self.sent_notifications` persists across
cycles), concatenating all emitted alerts. -/
def runEvaluations :
    List (List AgendaItem × Int) → List SentTriple → List SentTriple × List SentTriple
  | [], sent => ([], sent)
  | (ag, now) :: rest, sent =>
    let r := evaluateAgenda ag now sent
    let rr := runEvaluations rest r.2
    (r.1 ++ rr.1, rr.2)

/-- The merged live record for one floating definition: the definition
overlaid with its remote observation, if any (the `none` branch is never
reached for well-formed catalogs). -/
def mergeWithRemote (remote : List (JVal × PyDict)) (c : PyDict) : PyDict :=
  match lookupRec c "id" with
  | some i => pyMerge c ((alookupJ remote i).getD [])
  | none => c

/-- Invariant of the evaluate fold, relative to the dispatched record the
call started from: alerts are duplicate-free, recorded, and new. -/
def EvalInv (sent0 : List SentTriple) (acc : List SentTriple × List SentTriple) : Prop :=
  acc.1.Nodup ∧ (∀ t ∈ acc.1, t ∈ acc.2) ∧ (∀ t ∈ sent0, t ∈ acc.2) ∧
  (∀ t ∈ acc.1, t ∉ sent0)

/-! ## Basic lemmas about the embedding -/

theorem lookupRec_append (a b : PyDict) (k : String) :
    lookupRec (a ++ b) k = (lookupRec a k).orElse (fun _ => lookupRec b k) := by
  induction a with
  | nil => simp [lookupRec]
  | cons kv r ih =>
    obtain ⟨k', v⟩ := kv
    by_cases h : k' = k <;> simp [lookupRec, h, ih]

theorem lookupRec_map_overlay (a b : PyDict) (k : String) :
    lookupRec (a.map (fun kv => (kv.1, (lookupRec b kv.1).getD kv.2))) k
      = (lookupRec a k).map (fun v => (lookupRec b k).getD v) := by
  induction a with
  | nil => simp [lookupRec]
  | cons kv r ih =>
    obtain ⟨k', v⟩ := kv
    by_cases h : k' = k
    · subst h; simp [lookupRec, ih]
    · simp [lookupRec, h, ih]

theorem lookupRec_filter_none (a b : PyDict) (k : String) (h : lookupRec a k = none) :
    lookupRec (b.filter (fun kv => (lookupRec a kv.1).isNone)) k = lookupRec b k := by
  induction b with
  | nil => simp
  | cons kv r ih =>
    obtain ⟨k', v⟩ := kv
    by_cases hk : k' = k
    · subst hk; simp [lookupRec, h, ih]
    · by_cases hn : (lookupRec a k').isNone <;> simp [lookupRec, hk, ih, hn]

/-- Lookup in `{**a, **b}`: `b` (the overlay) wins, else `a`. -/
theorem lookupRec_pyMerge (a b : PyDict) (k : String) :
    lookupRec (pyMerge a b) k = (lookupRec b k).orElse (fun _ => lookupRec a k) := by
  rw [pyMerge, lookupRec_append, lookupRec_map_overlay]
  cases ha : lookupRec a k with
  | none => simp [lookupRec_filter_none _ _ _ ha]
  | some v =>
    cases hb : lookupRec b k with
    | none => simp
    | some w => simp

/-- `{**a}` with an empty overlay is `a` itself. -/
theorem pyMerge_empty (a : PyDict) : pyMerge a [] = a := by
  simp [pyMerge, lookupRec]


theorem DateTime.leb_trans (a b c : DateTime) :
    DateTime.leb a b → DateTime.leb b c → DateTime.leb a c := by
  simp only [DateTime.leb, decide_eq_true_eq]
  omega

theorem DateTime.leb_total (a b : DateTime) :
    DateTime.leb a b || DateTime.leb b a := by
  simp only [DateTime.leb, Bool.or_eq_true, decide_eq_true_eq]
  omega


theorem isDig_digCh {n : Nat} (h : n < 10) : isDig (digCh n) = true := by
  interval_cases n <;> decide

theorem digVal_digCh {n : Nat} (h : n < 10) : digVal (digCh n) = n := by
  interval_cases n <;> decide

theorem parseY_pad4 {y : Nat} (hy : y ≤ 9999) (rest : List Char) :
    parseY (pad4 y ++ rest) = some (y, rest) := by
  have h1 : y / 1000 % 10 < 10 := Nat.mod_lt _ (by omega)
  have h2 : y / 100 % 10 < 10 := Nat.mod_lt _ (by omega)
  have h3 : y / 10 % 10 < 10 := Nat.mod_lt _ (by omega)
  have h4 : y % 10 < 10 := Nat.mod_lt _ (by omega)
  simp only [pad4, List.cons_append, List.nil_append, parseY,
    isDig_digCh h1, isDig_digCh h2, isDig_digCh h3, isDig_digCh h4,
    digVal_digCh h1, digVal_digCh h2, digVal_digCh h3, digVal_digCh h4,
    Bool.and_self, if_true]
  congr 2
  omega

theorem parseMonth_pad2 {mo : Nat} (h1 : 1 ≤ mo) (h2 : mo ≤ 12) (rest : List Char) :
    parseMonth (pad2 mo ++ rest) = some (mo, rest) := by
  interval_cases mo <;> rfl

theorem parseDay_pad2 {d : Nat} (h1 : 1 ≤ d) (h2 : d ≤ 31) (rest : List Char) :
    parseDay (pad2 d ++ rest) = some (d, rest) := by
  interval_cases d <;> rfl

theorem parseHour_pad2 {h : Nat} (h2 : h ≤ 23) (rest : List Char) :
    parseHour (pad2 h ++ rest) = some (h, rest) := by
  interval_cases h <;> rfl

theorem parseMin_pad2 {mi : Nat} (h2 : mi ≤ 59) (rest : List Char) :
    parseMin (pad2 mi ++ rest) = some (mi, rest) := by
  interval_cases mi <;> rfl

theorem expectCh_cons_self (c : Char) (l : List Char) : expectCh c (c :: l) = some l := by
  simp [expectCh]

theorem daysInMonth_le_31 (y m : Nat) : daysInMonth y m ≤ 31 := by
  unfold daysInMonth; split_ifs <;> simp

/-- Parsing inverts canonical formatting on constructor-valid datetimes. -/
theorem parseDTChars_fmt (dt : DateTime) (hv : ValidDT dt) :
    parseDTChars
      (pad4 dt.date.year ++ '-' :: pad2 dt.date.month ++ '-' :: pad2 dt.date.day
        ++ ' ' :: pad2 dt.hour ++ ':' :: pad2 dt.minute) = some dt := by
  obtain ⟨h1, h2, h3, h4, h5, h6, h7, h8⟩ := hv
  have hd31 : dt.date.day ≤ 31 := le_trans h6 (daysInMonth_le_31 _ _)
  have hvv : ValidDT ⟨⟨dt.date.year, dt.date.month, dt.date.day⟩, dt.hour, dt.minute⟩ :=
    ⟨h1, h2, h3, h4, h5, h6, h7, h8⟩
  unfold parseDTChars
  simp only [List.append_assoc, List.cons_append]
  rw [parseY_pad4 h2]
  simp only [Option.bind_eq_bind, Option.some_bind, expectCh_cons_self]
  rw [show pad2 dt.minute = pad2 dt.minute ++ ([] : List Char) by simp]
  simp only [parseMonth_pad2 h3 h4, parseDay_pad2 h5 hd31, parseHour_pad2 h7,
    parseMin_pad2 h8, Option.bind_eq_bind, Option.some_bind, expectCh_cons_self]
  simp [hvv]


/-! ## Claims C5, C7, C9, C10 -/

/-- C5 is false of the code: after a failed reload the previous settings are
gone — `self.settings = self.fetch_from_github(...)` assigns the `{}` default
unconditionally, so the old value is not retained. -/
theorem claim_C5_counterexample :
    reloadSettings [("github_token", JVal.jstr "tok")] FetchOutcome.failed = [] ∧
    reloadSettings [("github_token", JVal.jstr "tok")] FetchOutcome.failed
      ≠ [("github_token", JVal.jstr "tok")] := by
  exact ⟨rfl, by decide⟩

/-- C5 amended: on each long-interval sync, if reloading the settings record
from the remote store fails, the in-memory settings are replaced by the empty
fetch default (cleared), not retained. -/
theorem claim_C5_amended (prev : PyDict) :
    reloadSettings prev FetchOutcome.failed = [] := rfl

/-- C7: the purge keeps exactly the already-sent entries whose
spawn-instance timestamp is at most `grace` in the past — every older entry
is removed, and no entry still within the grace period is removed. -/
theorem claim_C7 (now grace : Int) (sent : List SentTriple) (e : SentTriple) :
    e ∈ purgeSent now grace sent ↔ e ∈ sent ∧ now - e.2.1 ≤ grace := by
  simp [purgeSent, List.mem_filter]

/-- C9: in an iteration of `run`'s loop where the settings in effect (after
the long cycle, if due) are empty, the notification check is skipped and a
skip is logged instead, while the long-cycle resync decision is still taken
purely on its interval and the loop state is updated to keep retrying. -/
theorem claim_C9 (st : DriverState) (now : Nat) (loaded : PyDict)
    (hempty : (runIteration st now loaded).1.settings = []) :
    DriverAction.checkAllNotifications ∉ (runIteration st now loaded).2 ∧
    DriverAction.logSkip ∈ (runIteration st now loaded).2 ∧
    (DriverAction.loadAllData ∈ (runIteration st now loaded).2 ↔
      now - st.lastDownload ≥ 300) ∧
    (runIteration st now loaded).1.lastDownload
      = (if now - st.lastDownload ≥ 300 then now else st.lastDownload) := by
  by_cases hdl : now - st.lastDownload ≥ 300
  · by_cases hld : loaded = [] <;> simp_all [runIteration, hdl]
  · by_cases hst : st.settings = [] <;> simp_all [runIteration, if_neg hdl]

/-- C9 at a concrete iteration: settings empty and a download due. -/
theorem claim_C9_witness :
    (runIteration ⟨[], 0⟩ 400 []).1.settings = [] ∧
    DriverAction.checkAllNotifications ∉ (runIteration ⟨[], 0⟩ 400 []).2 ∧
    (DriverAction.loadAllData ∈ (runIteration ⟨[], 0⟩ 400 []).2 ↔ 400 - 0 ≥ 300) := by
  refine ⟨by decide, ?_, ?_⟩
  · exact (claim_C9 ⟨[], 0⟩ 400 [] (by decide)).1
  · exact (claim_C9 ⟨[], 0⟩ 400 [] (by decide)).2.2.1

/-- C10: a non-dict remote events payload leaves the custom-events state
unchanged; a dict payload that differs (Python dict equality is content
equality) replaces the state by exactly that payload. -/
theorem claim_C10 (cur : PyDict) :
    (∀ tag, updateEventsDataFromRemote cur (RemotePayload.nondict tag) = cur) ∧
    (∀ d, dictEquiv cur d = false →
      updateEventsDataFromRemote cur (RemotePayload.dict d) = d) := by
  refine ⟨fun _ => rfl, fun d hd => ?_⟩
  simp [updateEventsDataFromRemote, hd]

/-- C10 at a concrete payload differing from the current state. -/
theorem claim_C10_witness :
    dictEquiv [] [("e1", JVal.jstr "x")] = false ∧
    updateEventsDataFromRemote [] (RemotePayload.dict [("e1", JVal.jstr "x")])
      = [("e1", JVal.jstr "x")] := by
  exact ⟨by decide, (claim_C10 []).2 _ (by decide)⟩

/-! ## Claim C2: no duplicate (timer, spawn-instance, tier) emissions -/

theorem tierStep_inv (now : Int) (it : AgendaItem) (tier : Tier)
    (sent0 : List SentTriple) (acc : List SentTriple × List SentTriple)
    (h : EvalInv sent0 acc) : EvalInv sent0 (tierStep now it acc tier) := by
  obtain ⟨h1, h2, h3, h4⟩ := h
  unfold tierStep
  dsimp only
  split
  · rename_i hc
    obtain ⟨-, -, hnot⟩ := hc
    refine ⟨?_, ?_, ?_, ?_⟩
    · simp only [List.nodup_append, List.nodup_cons, List.nodup_nil, and_true,
        List.not_mem_nil, not_false_iff, List.disjoint_singleton, true_and, h1]
      exact fun hmem => hnot (h2 _ hmem)
    · intro t ht
      rcases List.mem_append.mp ht with h' | h'
      · exact List.mem_cons_of_mem _ (h2 _ h')
      · simp only [List.mem_singleton] at h'
        subst h'
        exact List.mem_cons_self _ _
    · exact fun t ht => List.mem_cons_of_mem _ (h3 t ht)
    · intro t ht
      rcases List.mem_append.mp ht with h' | h'
      · exact h4 _ h'
      · simp only [List.mem_singleton] at h'
        subst h'
        exact fun hs => hnot (h3 _ hs)
  · exact ⟨h1, h2, h3, h4⟩

theorem foldl_tierStep_inv (now : Int) (it : AgendaItem) (sent0 : List SentTriple) :
    ∀ (tiers : List Tier) (acc : List SentTriple × List SentTriple),
      EvalInv sent0 acc → EvalInv sent0 (tiers.foldl (tierStep now it) acc)
  | [], _, h => h
  | tier :: ts, acc, h =>
    foldl_tierStep_inv now it sent0 ts _ (tierStep_inv now it tier sent0 acc h)

theorem foldl_agenda_inv (now : Int) (sent0 : List SentTriple) :
    ∀ (ag : List AgendaItem) (acc : List SentTriple × List SentTriple),
      EvalInv sent0 acc →
      EvalInv sent0 (ag.foldl (fun acc item => item.tiers.foldl (tierStep now item) acc) acc)
  | [], _, h => h
  | it :: its, acc, h =>
    foldl_agenda_inv now sent0 its _ (foldl_tierStep_inv now it sent0 it.tiers acc h)

theorem evaluateAgenda_inv (ag : List AgendaItem) (now : Int) (sent : List SentTriple) :
    EvalInv sent (evaluateAgenda ag now sent) :=
  foldl_agenda_inv now sent ag ([], sent)
    ⟨List.nodup_nil, by simp, fun _ ht => ht, by simp⟩

theorem runEvaluations_spec (calls : List (List AgendaItem × Int)) :
    ∀ sent0 : List SentTriple,
      (runEvaluations calls sent0).1.Nodup ∧
      (∀ t ∈ (runEvaluations calls sent0).1, t ∉ sent0 ∧ t ∈ (runEvaluations calls sent0).2) ∧
      (∀ t ∈ sent0, t ∈ (runEvaluations calls sent0).2) := by
  induction calls with
  | nil => exact fun sent0 => ⟨List.nodup_nil, by simp [runEvaluations], fun _ ht => ht⟩
  | cons hd rest ih =>
    intro sent0
    obtain ⟨ag, now⟩ := hd
    obtain ⟨e1, e2, e3, e4⟩ := evaluateAgenda_inv ag now sent0
    obtain ⟨r1, r2, r3⟩ := ih (evaluateAgenda ag now sent0).2
    simp only [runEvaluations]
    refine ⟨?_, ?_, ?_⟩
    · rw [List.nodup_append]
      refine ⟨e1, r1, fun t ht ht' => ?_⟩
      exact (r2 t ht').1 (e2 t ht)
    · intro t ht
      rcases List.mem_append.mp ht with h' | h'
      · exact ⟨e4 t h', r3 _ (e2 t h')⟩
      · exact ⟨fun hs => (r2 t h').1 (e3 t hs), (r2 t h').2⟩
    · exact fun t ht => r3 t (e3 t ht)

/-- C2: across any sequence of evaluate calls with the dispatched record
carried forward, the emitted (timer id, spawn-instance key, tier) triples are
pairwise distinct, and none repeats a triple already in the initial record —
even when consecutive calls see an unchanged agenda. -/
theorem claim_C2 (calls : List (List AgendaItem × Int)) (sent0 : List SentTriple) :
    (runEvaluations calls sent0).1.Nodup ∧
    ∀ t ∈ (runEvaluations calls sent0).1, t ∉ sent0 :=
  ⟨(runEvaluations_spec calls sent0).1,
   fun t ht => ((runEvaluations_spec calls sent0).2.1 t ht).1⟩

/-- C2 at a concrete run: the same agenda evaluated twice with carried
state emits its triple exactly once. -/
theorem claim_C2_witness :
    (runEvaluations [([⟨"boss", 10, [⟨"imminent", 10⟩]⟩], 5),
        ([⟨"boss", 10, [⟨"imminent", 10⟩]⟩], 5)] []).1.Nodup ∧
    ("boss", 10, "imminent")
      ∈ (runEvaluations [([⟨"boss", 10, [⟨"imminent", 10⟩]⟩], 5),
          ([⟨"boss", 10, [⟨"imminent", 10⟩]⟩], 5)] []).1 ∧
    ("boss", 10, "imminent") ∉ ([] : List SentTriple) :=
  ⟨(claim_C2 [([⟨"boss", 10, [⟨"imminent", 10⟩]⟩], 5),
      ([⟨"boss", 10, [⟨"imminent", 10⟩]⟩], 5)] []).1,
   by decide,
   (claim_C2 [([⟨"boss", 10, [⟨"imminent", 10⟩]⟩], 5),
      ([⟨"boss", 10, [⟨"imminent", 10⟩]⟩], 5)] []).2 ("boss", 10, "imminent") (by decide)⟩

/-! ## Claim C6: the floating-catalog merge -/

theorem updateTimers_wf (remote : List (JVal × PyDict)) :
    ∀ (cfgs : List PyDict),
      (∀ c ∈ cfgs, (lookupRec c "type").isSome ∧
        (lookupRec c "type" = some (.jstr "floating") → (lookupRec c "id").isSome)) →
      updateTimersDataFromRemote cfgs remote
        = some ((cfgs.filter
            (fun c => lookupRec c "type" = some (.jstr "floating"))).map
              (mergeWithRemote remote)) := by
  intro cfgs
  induction cfgs with
  | nil => intro; rfl
  | cons c cs ih =>
    intro hwf
    obtain ⟨hty, hid⟩ := hwf c (List.mem_cons_self _ _)
    obtain ⟨tv, htv⟩ := Option.isSome_iff_exists.mp hty
    have ihres := ih (fun c' hc' => hwf c' (List.mem_cons_of_mem _ hc'))
    by_cases hfl : tv = .jstr "floating"
    · subst hfl
      obtain ⟨i, hi⟩ := Option.isSome_iff_exists.mp (hid htv)
      simp only [updateTimersDataFromRemote, htv, hi, if_pos rfl, ihres, Option.map_some,
        List.filter_cons_of_pos, mergeWithRemote]
      simp [htv, hi, mergeWithRemote]
    · have hne : lookupRec c "type" ≠ some (.jstr "floating") := by
        rw [htv]; exact fun h => hfl (by injection h)
      simp only [updateTimersDataFromRemote, htv, if_neg hfl, ihres]
      rw [List.filter_cons_of_neg (by simpa using hne)]

/-- C6: for a well-formed catalog, the merge yields exactly one live record
per floating-policy definition, in catalog order, with no error even when an
id is absent from the remote map; each record is the definition overlaid with
its observation (observation winning on conflicting keys), or the definition
alone when no observation exists; non-floating definitions are never
merged. -/
theorem claim_C6 (cfgs : List PyDict) (remote : List (JVal × PyDict))
    (hwf : ∀ c ∈ cfgs, (lookupRec c "type").isSome ∧
      (lookupRec c "type" = some (.jstr "floating") → (lookupRec c "id").isSome)) :
    updateTimersDataFromRemote cfgs remote
      = some ((cfgs.filter
          (fun c => lookupRec c "type" = some (.jstr "floating"))).map
            (mergeWithRemote remote)) ∧
    (∀ c i, lookupRec c "id" = some i →
      (∀ obs, alookupJ remote i = some obs →
        ∀ k, lookupRec (mergeWithRemote remote c) k
          = (lookupRec obs k).orElse (fun _ => lookupRec c k)) ∧
      (alookupJ remote i = none → mergeWithRemote remote c = c)) := by
  refine ⟨updateTimers_wf remote cfgs hwf, fun c i hi => ⟨?_, ?_⟩⟩
  · intro obs hobs k
    simp only [mergeWithRemote, hi, hobs, Option.getD_some]
    exact lookupRec_pyMerge c obs k
  · intro hnone
    simp only [mergeWithRemote, hi, hnone, Option.getD_none]
    exact pyMerge_empty c

/-- C6 at a concrete catalog: one fixed timer (skipped), one floating timer
with an observation (overlaid), one floating timer without (unchanged). -/
theorem claim_C6_witness :
    (∀ c ∈ [[("type", JVal.jstr "fixed"), ("id", JVal.jstr "f0")],
        [("type", JVal.jstr "floating"), ("id", JVal.jstr "b1")],
        [("type", JVal.jstr "floating"), ("id", JVal.jstr "b2")]],
      (lookupRec c "type").isSome ∧
        (lookupRec c "type" = some (.jstr "floating") → (lookupRec c "id").isSome)) ∧
    updateTimersDataFromRemote
        [[("type", JVal.jstr "fixed"), ("id", JVal.jstr "f0")],
         [("type", JVal.jstr "floating"), ("id", JVal.jstr "b1")],
         [("type", JVal.jstr "floating"), ("id", JVal.jstr "b2")]]
        [(JVal.jstr "b1", [("date", JVal.jstr "2024-01-01"), ("time", JVal.jstr "10:00")])]
      = some [[("type", JVal.jstr "floating"), ("id", JVal.jstr "b1"),
               ("date", JVal.jstr "2024-01-01"), ("time", JVal.jstr "10:00")],
              [("type", JVal.jstr "floating"), ("id", JVal.jstr "b2")]] := by
  refine ⟨by decide, ?_⟩
  rw [(claim_C6 _ _ (by decide)).1]
  decide

/-! ## Claim C3: the agenda is the stable ascending sort of the confirmed list -/

theorem predLeb_trans (a b c : ConfirmedPred) :
    predLeb a b → predLeb b c → predLeb a c :=
  DateTime.leb_trans a.spawn_dt b.spawn_dt c.spawn_dt

theorem predLeb_total (a b : ConfirmedPred) : predLeb a b || predLeb b a :=
  DateTime.leb_total a.spawn_dt b.spawn_dt

theorem DateTime.leb_refl (a : DateTime) : DateTime.leb a a = true := by
  simp [DateTime.leb]

/-- Stability of the agenda sort: filtering by any predicate whose matches
are mutually `≤` (in particular, equal-timestamp predictions) returns them in
input order. -/
theorem mergeSort_stable_filter (l : List ConfirmedPred) (p : ConfirmedPred → Bool)
    (hp : ∀ a b, p a → p b → predLeb a b) :
    (l.mergeSort predLeb).filter p = l.filter p := by
  have hc : (l.filter p).Pairwise (fun a b => predLeb a b) :=
    List.pairwise_of_forall_mem_list
      (fun a ha b hb => hp a b (List.of_mem_filter ha) (List.of_mem_filter hb))
  have hsub : List.Sublist (l.filter p) (l.mergeSort predLeb) :=
    List.sublist_mergeSort predLeb_trans predLeb_total hc (List.filter_sublist l)
  have hself : (l.filter p).filter p = l.filter p :=
    List.filter_eq_self.mpr (fun a ha => List.of_mem_filter ha)
  have hsub2 : List.Sublist (l.filter p) ((l.mergeSort predLeb).filter p) := by
    have := hsub.filter p
    rwa [hself] at this
  have hperm : ((l.mergeSort predLeb).filter p).Perm (l.filter p) :=
    (l.mergeSort_perm predLeb).filter p
  exact (hsub2.eq_of_length hperm.length_eq.symm).symm

/-- C3: `refresh_timers` builds `sorted_timers_data` as exactly the confirmed
predictions — a permutation of the confirmed list — in non-decreasing spawn
timestamp order, and predictions with equal timestamps keep their original
relative order (stable sort). -/
theorem claim_C3 (floating fixedWD : List PyDict) (conf : List ConfirmedPred)
    (unconf : List PyDict)
    (h : refreshLists floating fixedWD = some (conf, unconf)) :
    refreshTimersModel floating fixedWD = some (conf.mergeSort predLeb, unconf) ∧
    (conf.mergeSort predLeb).Perm conf ∧
    (conf.mergeSort predLeb).Pairwise (fun a b => predLeb a b = true) ∧
    ∀ dt : DateTime,
      (conf.mergeSort predLeb).filter (fun c => decide (c.spawn_dt = dt))
        = conf.filter (fun c => decide (c.spawn_dt = dt)) := by
  refine ⟨by simp [refreshTimersModel, h], conf.mergeSort_perm predLeb, ?_, ?_⟩
  · exact List.sorted_mergeSort predLeb_trans predLeb_total conf
  · intro dt
    refine mergeSort_stable_filter conf _ (fun a b ha hb => ?_)
    have ha' : a.spawn_dt = dt := of_decide_eq_true ha
    have hb' : b.spawn_dt = dt := of_decide_eq_true hb
    simp [predLeb, ha', hb', DateTime.leb_refl]

/-- C3 at a concrete refresh: one confirmed floating record. -/
theorem claim_C3_witness :
    refreshLists [[("date", JVal.jstr "2024-01-02"), ("time", JVal.jstr "09:00")]] []
      = some ([⟨[("date", JVal.jstr "2024-01-02"), ("time", JVal.jstr "09:00")],
          ⟨⟨2024, 1, 2⟩, 9, 0⟩⟩], []) ∧
    refreshTimersModel [[("date", JVal.jstr "2024-01-02"), ("time", JVal.jstr "09:00")]] []
      = some ([⟨[("date", JVal.jstr "2024-01-02"), ("time", JVal.jstr "09:00")],
          ⟨⟨2024, 1, 2⟩, 9, 0⟩⟩].mergeSort predLeb, []) :=
  ⟨by decide,
   (claim_C3 [[("date", JVal.jstr "2024-01-02"), ("time", JVal.jstr "09:00")]] []
      [⟨[("date", JVal.jstr "2024-01-02"), ("time", JVal.jstr "09:00")],
          ⟨⟨2024, 1, 2⟩, 9, 0⟩⟩] [] (by decide)).1⟩

/-! ## Format/parse round-trip at the string level -/

theorem fmt_concat_data (da : Date) (h mi : Nat) :
    (fmtDate da ++ " " ++ fmtTimeHM h mi).data
      = pad4 da.year ++ '-' :: pad2 da.month ++ '-' :: pad2 da.day
        ++ ' ' :: pad2 h ++ ':' :: pad2 mi := by
  have hsp : (" " : String).data = [' '] := rfl
  simp [fmtDate, fmtTimeHM, hsp, List.append_assoc]

theorem parseDateTime_fmt (da : Date) (h mi : Nat) (hv : ValidDT ⟨da, h, mi⟩) :
    parseDateTime (fmtDate da ++ " " ++ fmtTimeHM h mi) = some ⟨da, h, mi⟩ := by
  have hp := parseDTChars_fmt ⟨da, h, mi⟩ hv
  unfold parseDateTime
  rw [fmt_concat_data]
  exact hp

theorem fmtTimeHM_ne_sentinel (h mi : Nat) : fmtTimeHM h mi ≠ unconfirmedSentinel := by
  intro heq
  have hlen := congrArg String.length heq
  have h5 : (fmtTimeHM h mi).length = 5 := by
    simp [fmtTimeHM, String.length, pad2]
  rw [h5] at hlen
  exact absurd hlen (by decide)

theorem fmtDate_ne_empty (d : Date) : fmtDate d ≠ "" := by
  intro heq
  have hlen := congrArg String.length heq
  have h10 : (fmtDate d).length = 10 := by
    simp [fmtDate, String.length, pad4, pad2]
  rw [h10] at hlen
  exact absurd hlen (by decide)

theorem truthy_fmtDate (d : Date) : truthy (some (.jstr (fmtDate d))) = true := by
  simp [truthy, fmtDate_ne_empty d]

/-! ## Classification lemmas for `refresh_timers` -/

theorem classifyFloating_conf {t : PyDict} {dv tv : JVal} {dt : DateTime}
    (hd : lookupRec t "date" = some dv) (htv : lookupRec t "time" = some tv)
    (hsent : tv ≠ .jstr unconfirmedSentinel) (htr : truthy (some dv) = true)
    (hp : parseDateTime (dv.pyStr ++ " " ++ tv.pyStr) = some dt) :
    classifyFloating t = some (Sum.inl ⟨t, dt⟩) := by
  unfold classifyFloating
  rw [hd, htv, if_pos ⟨fun hc => hsent (Option.some.inj hc), htr⟩]
  simp only [hp]

theorem classifyFloating_unconf_parse {t : PyDict} {dv tv : JVal}
    (hd : lookupRec t "date" = some dv) (htv : lookupRec t "time" = some tv)
    (hsent : tv ≠ .jstr unconfirmedSentinel) (htr : truthy (some dv) = true)
    (hp : parseDateTime (dv.pyStr ++ " " ++ tv.pyStr) = none) :
    classifyFloating t = some (Sum.inr t) := by
  unfold classifyFloating
  rw [hd, htv, if_pos ⟨fun hc => hsent (Option.some.inj hc), htr⟩]
  simp only [hp]

theorem classifyFloating_unconf_guard {t : PyDict}
    (hcond : lookupRec t "time" = some (.jstr unconfirmedSentinel)
      ∨ truthy (lookupRec t "date") = false) :
    classifyFloating t = some (Sum.inr t) := by
  unfold classifyFloating
  rw [if_neg]
  rintro ⟨h1, h2⟩
  rcases hcond with hc | hc
  · exact h1 hc
  · rw [hc] at h2; exact absurd h2 (by decide)

theorem classifyFixed_conf {t : PyDict} {dv tv : JVal} {dt : DateTime}
    (hd : lookupRec t "date" = some dv) (htv : lookupRec t "time" = some tv)
    (hp : parseDateTime (dv.pyStr ++ " " ++ tv.pyStr) = some dt) :
    classifyFixed t = some (Sum.inl ⟨t, dt⟩) := by
  unfold classifyFixed
  rw [hd, htv]
  simp only [hp]

theorem classifyFixed_unconf_parse {t : PyDict} {dv tv : JVal}
    (hd : lookupRec t "date" = some dv) (htv : lookupRec t "time" = some tv)
    (hp : parseDateTime (dv.pyStr ++ " " ++ tv.pyStr) = none) :
    classifyFixed t = some (Sum.inr t) := by
  unfold classifyFixed
  rw [hd, htv]
  simp only [hp]

theorem classifyFloating_inl_entry {t : PyDict} {cr : ConfirmedPred}
    (h : classifyFloating t = some (Sum.inl cr)) : cr.entry = t := by
  unfold classifyFloating at h
  by_cases hc : lookupRec t "time" ≠ some (.jstr unconfirmedSentinel)
      ∧ truthy (lookupRec t "date")
  · rw [if_pos hc] at h
    cases hdv : lookupRec t "date" with
    | none => rw [hdv] at h; cases htv : lookupRec t "time" <;> rw [htv] at h <;> simp at h
    | some dv =>
      rw [hdv] at h
      cases htv : lookupRec t "time" with
      | none => rw [htv] at h; simp at h
      | some tv =>
        rw [htv] at h
        cases hp : parseDateTime (dv.pyStr ++ " " ++ tv.pyStr) with
        | none => simp only [hp] at h; simp at h
        | some dt =>
          simp only [hp] at h
          simp only [Option.some.injEq, Sum.inl.injEq] at h
          rw [← h]
  · rw [if_neg hc] at h
    simp at h

theorem classifyFixed_inl_entry {t : PyDict} {cr : ConfirmedPred}
    (h : classifyFixed t = some (Sum.inl cr)) : cr.entry = t := by
  unfold classifyFixed at h
  cases hdv : lookupRec t "date" with
  | none => rw [hdv] at h; cases htv : lookupRec t "time" <;> rw [htv] at h <;> simp at h
  | some dv =>
    rw [hdv] at h
    cases htv : lookupRec t "time" with
    | none => rw [htv] at h; simp at h
    | some tv =>
      rw [htv] at h
      cases hp : parseDateTime (dv.pyStr ++ " " ++ tv.pyStr) with
      | none => simp only [hp] at h; simp at h
      | some dt =>
        simp only [hp] at h
        simp only [Option.some.injEq, Sum.inl.injEq] at h
        rw [← h]

/-- C8: a floating record whose `date` and `time` fields are (valid)
canonical renderings under the fixed `YYYY-MM-DD HH:MM` format parses to a
confirmed prediction whose timestamp re-renders to exactly `date + time`. -/
theorem claim_C8 (t : PyDict) (da : Date) (h mi : Nat)
    (hdate : lookupRec t "date" = some (.jstr (fmtDate da)))
    (htime : lookupRec t "time" = some (.jstr (fmtTimeHM h mi)))
    (hda : ValidDate da) (hh : h ≤ 23) (hmi : mi ≤ 59) :
    classifyFloating t = some (Sum.inl ⟨t, ⟨da, h, mi⟩⟩) ∧
    fmtDateTime ⟨da, h, mi⟩ = fmtDate da ++ " " ++ fmtTimeHM h mi := by
  obtain ⟨v1, v2, v3, v4, v5, v6⟩ := hda
  have hv : ValidDT ⟨da, h, mi⟩ := ⟨v1, v2, v3, v4, v5, v6, hh, hmi⟩
  refine ⟨classifyFloating_conf hdate htime ?_ (truthy_fmtDate da) ?_, rfl⟩
  · intro hc
    injection hc with hs
    exact fmtTimeHM_ne_sentinel h mi hs
  · simpa [JVal.pyStr] using parseDateTime_fmt da h mi hv

/-- C8 at a concrete record: `2024-01-02` + `09:05`. -/
theorem claim_C8_witness :
    lookupRec [("date", JVal.jstr (fmtDate ⟨2024, 1, 2⟩)),
        ("time", JVal.jstr (fmtTimeHM 9 5))] "date"
      = some (JVal.jstr (fmtDate ⟨2024, 1, 2⟩)) ∧
    ValidDate ⟨2024, 1, 2⟩ ∧
    classifyFloating [("date", JVal.jstr (fmtDate ⟨2024, 1, 2⟩)),
        ("time", JVal.jstr (fmtTimeHM 9 5))]
      = some (Sum.inl ⟨[("date", JVal.jstr (fmtDate ⟨2024, 1, 2⟩)),
          ("time", JVal.jstr (fmtTimeHM 9 5))], ⟨⟨2024, 1, 2⟩, 9, 5⟩⟩) :=
  ⟨by decide, by decide,
   (claim_C8 [("date", JVal.jstr (fmtDate ⟨2024, 1, 2⟩)),
      ("time", JVal.jstr (fmtTimeHM 9 5))] ⟨2024, 1, 2⟩ 9 5
      (by decide) (by decide) (by decide) (by decide) (by decide)).1⟩

/-! ## Claim C1: fixed-timer anchoring -/

theorem digCh_ne_colon {k : Nat} (h : k < 10) : ¬ digCh k = ':' := by
  interval_cases k <;> decide

theorem digCh_ne_minus {k : Nat} (h : k < 10) : ¬ digCh k = '-' := by
  interval_cases k <;> decide

theorem digCh_ne_plus {k : Nat} (h : k < 10) : ¬ digCh k = '+' := by
  interval_cases k <;> decide

theorem isPySpace_digCh {k : Nat} (h : k < 10) : isPySpace (digCh k) = false := by
  interval_cases k <;> decide

/-- Splitting the canonical `HH:MM` rendering at `':'` gives the two digit
pairs. -/
theorem splitChar_fmtTime (h mi : Nat) :
    splitChar ':' (fmtTimeHM h mi).data = [pad2 h, pad2 mi] := by
  have h1 : h / 10 % 10 < 10 := Nat.mod_lt _ (by omega)
  have h2 : h % 10 < 10 := Nat.mod_lt _ (by omega)
  have h3 : mi / 10 % 10 < 10 := Nat.mod_lt _ (by omega)
  have h4 : mi % 10 < 10 := Nat.mod_lt _ (by omega)
  have n1 : (digCh (h / 10 % 10) = ':') = False := eq_false (digCh_ne_colon h1)
  have n2 : (digCh (h % 10) = ':') = False := eq_false (digCh_ne_colon h2)
  have n3 : (digCh (mi / 10 % 10) = ':') = False := eq_false (digCh_ne_colon h3)
  have n4 : (digCh (mi % 10) = ':') = False := eq_false (digCh_ne_colon h4)
  show splitChar ':' (pad2 h ++ ':' :: pad2 mi) = [pad2 h, pad2 mi]
  simp only [pad2, List.cons_append, List.nil_append, splitChar, n1, n2, n3, n4,
    if_false, if_pos rfl, if_true]

/-- `int()` of a canonical two-digit rendering. -/
theorem pyInt_pad2 {n : Nat} (h : n ≤ 99) : pyInt (pad2 n) = some (n : Int) := by
  have h1 : n / 10 % 10 < 10 := Nat.mod_lt _ (by omega)
  have h2 : n % 10 < 10 := Nat.mod_lt _ (by omega)
  have s1 : isPySpace (digCh (n / 10 % 10)) = false := isPySpace_digCh h1
  have s2 : isPySpace (digCh (n % 10)) = false := isPySpace_digCh h2
  have hstrip : pyStrip (pad2 n) = pad2 n := by
    simp [pyStrip, pad2, List.dropWhile_cons, s1, s2]
  have hval : digitsVal (pad2 n) = n := by
    simp only [digitsVal, pad2, List.foldl, digVal_digCh h1, digVal_digCh h2]
    omega
  unfold pyInt
  rw [hstrip]
  show (if digCh (n / 10 % 10) = '-' then _
    else if digCh (n / 10 % 10) = '+' then _
    else if ([digCh (n / 10 % 10), digCh (n % 10)]).all isDig
      then some ((digitsVal [digCh (n / 10 % 10), digCh (n % 10)] : Nat) : Int)
      else none) = some (n : Int)
  rw [if_neg (digCh_ne_minus h1), if_neg (digCh_ne_plus h1)]
  rw [if_pos (by simp [List.all_cons, isDig_digCh h1, isDig_digCh h2])]
  rw [show digitsVal [digCh (n / 10 % 10), digCh (n % 10)] = n from hval]

/-- C1: a fixed timer whose time-of-day string is the canonical `HH:MM`
rendering is anchored to tomorrow exactly when the current time-of-day is
strictly past the timer's time-of-day (today otherwise), and the dated
record's parsed prediction timestamp is the anchor date combined with the
timer's time-of-day. -/
theorem claim_C1 (nowTod : TimeOfDay) (today anchor : Date) (timer : PyDict)
    (h m : Nat)
    (htime : lookupRec timer "time" = some (.jstr (fmtTimeHM h m)))
    (hh : h ≤ 23) (hm : m ≤ 59)
    (htoday : ValidDate today) (htmrw : ValidDate (nextDay today))
    (hanchor : anchor = if nowTod.gtb ⟨h, m, 0⟩ then nextDay today else today) :
    processFixed nowTod today timer
      = some (pyMerge timer [("date", JVal.jstr (fmtDate anchor))]) ∧
    lookupRec (pyMerge timer [("date", JVal.jstr (fmtDate anchor))]) "date"
      = some (JVal.jstr (fmtDate anchor)) ∧
    classifyFixed (pyMerge timer [("date", JVal.jstr (fmtDate anchor))])
      = some (Sum.inl ⟨pyMerge timer [("date", JVal.jstr (fmtDate anchor))],
          ⟨anchor, h, m⟩⟩) := by
  have hdlook : lookupRec (pyMerge timer [("date", JVal.jstr (fmtDate anchor))]) "date"
      = some (JVal.jstr (fmtDate anchor)) := by
    rw [lookupRec_pyMerge]
    simp [lookupRec]
  have htlook : lookupRec (pyMerge timer [("date", JVal.jstr (fmtDate anchor))]) "time"
      = some (JVal.jstr (fmtTimeHM h m)) := by
    rw [lookupRec_pyMerge]
    simp [lookupRec, htime]
  have hvalid : ValidDate anchor := by
    rw [hanchor]
    by_cases hg : nowTod.gtb ⟨h, m, 0⟩ <;> simp [hg, htoday, htmrw]
  have hvdt : ValidDT ⟨anchor, h, m⟩ := by
    obtain ⟨v1, v2, v3, v4, v5, v6⟩ := hvalid
    exact ⟨v1, v2, v3, v4, v5, v6, hh, hm⟩
  refine ⟨?_, hdlook, classifyFixed_conf hdlook htlook
    (by simpa [JVal.pyStr] using parseDateTime_fmt anchor h m hvdt)⟩
  unfold processFixed
  rw [htime]
  show (match splitChar ':' (fmtTimeHM h m).data with
    | [hcs, mcs] =>
      match pyInt hcs, pyInt mcs with
      | some h', some m' =>
        if 0 ≤ h' ∧ h' ≤ 23 ∧ 0 ≤ m' ∧ m' ≤ 59 then
          some (pyMerge timer [("date", JVal.jstr (fmtDate
            (if nowTod.gtb ⟨h'.toNat, m'.toNat, 0⟩ then nextDay today else today)))])
        else none
      | _, _ => none
    | _ => none)
    = some (pyMerge timer [("date", JVal.jstr (fmtDate anchor))])
  rw [splitChar_fmtTime]
  show (match pyInt (pad2 h), pyInt (pad2 m) with
    | some h', some m' =>
      if 0 ≤ h' ∧ h' ≤ 23 ∧ 0 ≤ m' ∧ m' ≤ 59 then
        some (pyMerge timer [("date", JVal.jstr (fmtDate
          (if nowTod.gtb ⟨h'.toNat, m'.toNat, 0⟩ then nextDay today else today)))])
      else none
    | _, _ => none)
    = some (pyMerge timer [("date", JVal.jstr (fmtDate anchor))])
  rw [pyInt_pad2 (by omega : h ≤ 99), pyInt_pad2 (by omega : m ≤ 99)]
  show (if (0 : Int) ≤ (h : Int) ∧ (h : Int) ≤ 23 ∧ (0 : Int) ≤ (m : Int) ∧ (m : Int) ≤ 59 then
      some (pyMerge timer [("date", JVal.jstr (fmtDate
        (if nowTod.gtb ⟨(h : Int).toNat, (m : Int).toNat, 0⟩ then nextDay today else today)))])
    else none)
    = some (pyMerge timer [("date", JVal.jstr (fmtDate anchor))])
  rw [if_pos (by refine ⟨by positivity, by exact_mod_cast hh, by positivity, by exact_mod_cast hm⟩)]
  rw [show ((h : Int).toNat) = h from Int.toNat_natCast h,
    show ((m : Int).toNat) = m from Int.toNat_natCast m, ← hanchor]

/-- C1 at the spec's own example: now 10:00, timer "09:00" → anchored to
tomorrow, 2024-01-02 09:00. -/
theorem claim_C1_witness :
    lookupRec [("type", JVal.jstr "fixed"), ("time", JVal.jstr "09:00")] "time"
      = some (JVal.jstr (fmtTimeHM 9 0)) ∧
    (⟨2024, 1, 2⟩ : Date) = (if TimeOfDay.gtb ⟨10, 0, 0⟩ ⟨9, 0, 0⟩
      then nextDay ⟨2024, 1, 1⟩ else ⟨2024, 1, 1⟩) ∧
    processFixed ⟨10, 0, 0⟩ ⟨2024, 1, 1⟩
        [("type", JVal.jstr "fixed"), ("time", JVal.jstr "09:00")]
      = some (pyMerge [("type", JVal.jstr "fixed"), ("time", JVal.jstr "09:00")]
          [("date", JVal.jstr (fmtDate ⟨2024, 1, 2⟩))]) :=
  ⟨by decide, by decide,
   (claim_C1 ⟨10, 0, 0⟩ ⟨2024, 1, 1⟩ ⟨2024, 1, 2⟩
      [("type", JVal.jstr "fixed"), ("time", JVal.jstr "09:00")] 9 0
      (by decide) (by decide) (by decide) (by decide) (by decide) (by decide)).1⟩

/-! ## Claim C4: unconfirmed floating records -/

theorem parseY_shape {l : List Char} {p : Nat × List Char} (h : parseY l = some p) :
    ∃ c1 c2 c3 c4, l = c1 :: c2 :: c3 :: c4 :: p.2 ∧ isDig c1 := by
  unfold parseY at h
  split at h
  · rename_i c1 c2 c3 c4 rest
    split at h
    · rename_i hdig
      simp only [Bool.and_eq_true] at hdig
      obtain ⟨⟨⟨hd1, -⟩, -⟩, -⟩ := hdig
      injection h with h'
      exact ⟨c1, c2, c3, c4, by rw [← h'], hd1⟩
    · exact absurd h (by simp)
  · exact absurd h (by simp)

theorem parseMonth_suffix {l : List Char} {p : Nat × List Char}
    (h : parseMonth l = some p) : ∃ q, l = q ++ p.2 := by
  unfold parseMonth at h
  split at h
  · rename_i c1 c2 rest
    split_ifs at h <;> injection h with h' <;> rw [← h']
    · exact ⟨[c1, c2], rfl⟩
    · exact ⟨[c1, c2], rfl⟩
    · exact ⟨[c1], rfl⟩
  · rename_i c1
    split_ifs at h
    injection h with h'
    rw [← h']
    exact ⟨[c1], rfl⟩
  · exact absurd h (by simp)

theorem parseDay_suffix {l : List Char} {p : Nat × List Char}
    (h : parseDay l = some p) : ∃ q, l = q ++ p.2 := by
  unfold parseDay at h
  split at h
  · rename_i c1 c2 rest
    split_ifs at h <;> injection h with h' <;> rw [← h']
    · exact ⟨[c1, c2], rfl⟩
    · exact ⟨[c1, c2], rfl⟩
    · exact ⟨[c1, c2], rfl⟩
    · exact ⟨[c1], rfl⟩
  · rename_i c1
    split_ifs at h
    injection h with h'
    rw [← h']
    exact ⟨[c1], rfl⟩
  · exact absurd h (by simp)

theorem parseHour_suffix {l : List Char} {p : Nat × List Char}
    (h : parseHour l = some p) : ∃ q, l = q ++ p.2 := by
  unfold parseHour at h
  split at h
  · rename_i c1 c2 rest
    split_ifs at h <;> injection h with h' <;> rw [← h']
    · exact ⟨[c1, c2], rfl⟩
    · exact ⟨[c1, c2], rfl⟩
    · exact ⟨[c1], rfl⟩
  · rename_i c1
    split_ifs at h
    injection h with h'
    rw [← h']
    exact ⟨[c1], rfl⟩
  · exact absurd h (by simp)

theorem expectCh_suffix {c : Char} {l r : List Char} (h : expectCh c l = some r) :
    l = [c] ++ r := by
  unfold expectCh at h
  split at h
  · rename_i c' l'
    split_ifs at h with hc
    injection h with h'
    rw [hc, h']
    rfl
  · exact absurd h (by simp)

theorem parseMin_done {l : List Char} {v : Nat} (h : parseMin l = some (v, [])) :
    ∃ c, l.getLast? = some c ∧ isDig c := by
  unfold parseMin at h
  split at h
  · rename_i c1 c2 rest
    split_ifs at h with h1 h2
    · simp only [Bool.and_eq_true] at h1
      obtain ⟨-, hd2⟩ := h1
      have hrest : rest = [] := by
        have := congrArg Prod.snd (Option.some.inj h)
        simpa using this
      subst hrest
      exact ⟨c2, by simp, hd2⟩
    · have hcontra : (c2 :: rest : List Char) = [] := by
        have hsnd := congrArg Prod.snd (Option.some.inj h)
        exact hsnd
      exact absurd hcontra (by simp)
  · rename_i c1
    split_ifs at h with h1
    exact ⟨c1, rfl, h1⟩
  · exact absurd h (by simp)

theorem getLast?_cons_of_some {α : Type} {l : List α} {c a : α}
    (h : l.getLast? = some c) : (a :: l).getLast? = some c := by
  cases l with
  | nil => simp at h
  | cons b t =>
    rw [show (a :: b :: t : List α) = [a] ++ (b :: t) from rfl,
      List.getLast?_append, h]
    rfl

theorem getLast?_append_of_some {α : Type} {l r : List α} {c : α}
    (h : r.getLast? = some c) : (l ++ r).getLast? = some c := by
  rw [List.getLast?_append, h]
  rfl

/-- A successfully parsed string ends in a digit (the minute field is last
and must consume to the end). -/
theorem parseDTChars_last {s : List Char} {dt : DateTime}
    (h : parseDTChars s = some dt) : ∃ c, s.getLast? = some c ∧ isDig c := by
  unfold parseDTChars at h
  cases hy : parseY s with
  | none => rw [hy] at h; exact absurd h (by simp)
  | some p1 =>
    rw [hy] at h
    obtain ⟨y, r1⟩ := p1
    simp only [Option.bind_eq_bind, Option.some_bind] at h
    cases he1 : expectCh '-' r1 with
    | none => rw [he1] at h; exact absurd h (by simp)
    | some r1' =>
      rw [he1] at h
      simp only [Option.some_bind] at h
      cases hmo : parseMonth r1' with
      | none => rw [hmo] at h; exact absurd h (by simp)
      | some p2 =>
        rw [hmo] at h
        obtain ⟨mo, r2⟩ := p2
        simp only [Option.some_bind] at h
        cases he2 : expectCh '-' r2 with
        | none => rw [he2] at h; exact absurd h (by simp)
        | some r2' =>
          rw [he2] at h
          simp only [Option.some_bind] at h
          cases hd : parseDay r2' with
          | none => rw [hd] at h; exact absurd h (by simp)
          | some p3 =>
            rw [hd] at h
            obtain ⟨d, r3⟩ := p3
            simp only [Option.some_bind] at h
            cases he3 : expectCh ' ' r3 with
            | none => rw [he3] at h; exact absurd h (by simp)
            | some r3' =>
              rw [he3] at h
              simp only [Option.some_bind] at h
              cases hh : parseHour r3' with
              | none => rw [hh] at h; exact absurd h (by simp)
              | some p4 =>
                rw [hh] at h
                obtain ⟨hr, r4⟩ := p4
                simp only [Option.some_bind] at h
                cases he4 : expectCh ':' r4 with
                | none => rw [he4] at h; exact absurd h (by simp)
                | some r4' =>
                  rw [he4] at h
                  simp only [Option.some_bind] at h
                  cases hmi : parseMin r4' with
                  | none => rw [hmi] at h; exact absurd h (by simp)
                  | some p5 =>
                    rw [hmi] at h
                    obtain ⟨mi, r5⟩ := p5
                    simp only [Option.some_bind] at h
                    have hr5 : r5 = [] := by
                      by_contra hne
                      rw [if_neg (fun hc => hne hc.1)] at h
                      exact absurd h (by simp)
                    subst hr5
                    obtain ⟨c, hlast, hdig⟩ := parseMin_done hmi
                    obtain ⟨q2, hq2⟩ := parseMonth_suffix hmo
                    obtain ⟨q3, hq3⟩ := parseDay_suffix hd
                    obtain ⟨q4, hq4⟩ := parseHour_suffix hh
                    refine ⟨c, ?_, hdig⟩
                    obtain ⟨d1, d2, d3, d4, hs, -⟩ := parseY_shape hy
                    rw [hs, expectCh_suffix he1, hq2, expectCh_suffix he2, hq3,
                      expectCh_suffix he3, hq4, expectCh_suffix he4]
                    exact getLast?_cons_of_some (getLast?_cons_of_some
                      (getLast?_cons_of_some (getLast?_cons_of_some
                      (getLast?_append_of_some (getLast?_append_of_some
                      (getLast?_append_of_some (getLast?_append_of_some
                      (getLast?_append_of_some (getLast?_append_of_some
                      (getLast?_append_of_some hlast))))))))))

/-- A successfully parsed string starts with a digit (the year field). -/
theorem parseDTChars_head {s : List Char} {dt : DateTime}
    (h : parseDTChars s = some dt) : ∃ c r, s = c :: r ∧ isDig c := by
  unfold parseDTChars at h
  cases hy : parseY s with
  | none => rw [hy] at h; exact absurd h (by simp)
  | some p =>
    obtain ⟨d1, d2, d3, d4, hs, hd⟩ := parseY_shape hy
    exact ⟨d1, _, hs, hd⟩

/-- A date+time whose time field is the sentinel can never parse: the string
ends in a non-digit. -/
theorem parseDateTime_sentinel_fail (x : String) :
    parseDateTime (x ++ " " ++ unconfirmedSentinel) = none := by
  cases hp : parseDateTime (x ++ " " ++ unconfirmedSentinel) with
  | none => rfl
  | some dt =>
    exfalso
    unfold parseDateTime at hp
    obtain ⟨c, hlast, hdig⟩ := parseDTChars_last hp
    have hdata : (x ++ " " ++ unconfirmedSentinel).data
        = x.data ++ (' ' :: ['待', '確', '認']) := by
      have h1 : (" " : String).data = [' '] := rfl
      have h2 : (unconfirmedSentinel : String).data = ['待', '確', '認'] := rfl
      simp [String.data_append, h1, h2]
    rw [hdata] at hlast
    have : some c = some '認' := by
      rw [← hlast]
      exact getLast?_append_of_some (by decide)
    rw [Option.some.inj this] at hdig
    exact absurd hdig (by decide)

/-- A date+time whose date field stringifies to `""` never parses. -/
theorem parseDateTime_empty_date (tvs : String) :
    parseDateTime ("" ++ " " ++ tvs) = none := by
  cases hp : parseDateTime ("" ++ " " ++ tvs) with
  | none => rfl
  | some dt =>
    exfalso
    unfold parseDateTime at hp
    obtain ⟨c, r, hs, hdig⟩ := parseDTChars_head hp
    have hdata : ("" ++ " " ++ tvs).data = ' ' :: tvs.data := by
      have h1 : (" " : String).data = [' '] := rfl
      have h2 : ("" : String).data = [] := rfl
      simp [String.data_append, h1, h2]
    rw [hdata] at hs
    have hc : c = ' ' := (List.cons.injEq _ _ _ _ ▸ hs).1.symm
    rw [hc] at hdig
    exact absurd hdig (by decide)

/-- A date+time whose date field is a non-string value never parses (its
rendering opens with a guillemet). -/
theorem parseDateTime_jother_date (n : Nat) (tvs : String) :
    parseDateTime (JVal.pyStr (.jother n) ++ " " ++ tvs) = none := by
  cases hp : parseDateTime (JVal.pyStr (.jother n) ++ " " ++ tvs) with
  | none => rfl
  | some dt =>
    exfalso
    unfold parseDateTime at hp
    obtain ⟨c, r, hs, hdig⟩ := parseDTChars_head hp
    have hdata : ∃ rest, (JVal.pyStr (.jother n) ++ " " ++ tvs).data
        = '«' :: rest := by
      have h1 : ("«" : String).data = ['«'] := rfl
      refine ⟨(toString n).data ++ "»".data ++ ' ' :: tvs.data, ?_⟩
      simp [JVal.pyStr, String.data_append, h1]
    obtain ⟨rest, hdata⟩ := hdata
    rw [hdata] at hs
    have hc : c = '«' := (List.cons.injEq _ _ _ _ ▸ hs).1.symm
    rw [hc] at hdig
    exact absurd hdig (by decide)

theorem classifyList_unconf_mem (step : PyDict → Option (ConfirmedPred ⊕ PyDict)) :
    ∀ (l : List PyDict) (c : List ConfirmedPred) (u : List PyDict),
      classifyList step l = some (c, u) →
      ∀ r ∈ l, step r = some (Sum.inr r) → r ∈ u := by
  intro l
  induction l with
  | nil => intro c u h r hr; simp at hr
  | cons t ts ih =>
    intro c u h r hr hstep2
    unfold classifyList at h
    cases hstep : step t with
    | none => rw [hstep] at h; exact absurd h (by simp)
    | some r0 =>
      rw [hstep] at h
      cases hrec : classifyList step ts with
      | none => rw [hrec] at h; cases r0 <;> exact absurd h (by simp)
      | some cu =>
        rw [hrec] at h
        obtain ⟨c', u'⟩ := cu
        rcases List.mem_cons.mp hr with heq | hmem
        · subst heq
          rw [hstep2] at hstep
          have hr0 : Sum.inr r = r0 := Option.some.inj hstep
          rw [← hr0] at h
          simp only [Option.some.injEq, Prod.mk.injEq] at h
          rw [← h.2]
          exact List.mem_cons_self _ _
        · cases r0 with
          | inl cr =>
            simp only [Option.some.injEq, Prod.mk.injEq] at h
            rw [← h.2]
            exact ih c' u' hrec r hmem hstep2
          | inr ur =>
            simp only [Option.some.injEq, Prod.mk.injEq] at h
            rw [← h.2]
            exact List.mem_cons_of_mem _ (ih c' u' hrec r hmem hstep2)

theorem classifyList_conf_mem (step : PyDict → Option (ConfirmedPred ⊕ PyDict)) :
    ∀ (l : List PyDict) (c : List ConfirmedPred) (u : List PyDict),
      classifyList step l = some (c, u) →
      ∀ x ∈ c, ∃ r ∈ l, step r = some (Sum.inl x) := by
  intro l
  induction l with
  | nil =>
    intro c u h x hx
    unfold classifyList at h
    simp only [Option.some.injEq, Prod.mk.injEq] at h
    rw [← h.1] at hx
    simp at hx
  | cons t ts ih =>
    intro c u h x hx
    unfold classifyList at h
    cases hstep : step t with
    | none => rw [hstep] at h; exact absurd h (by simp)
    | some r0 =>
      rw [hstep] at h
      cases hrec : classifyList step ts with
      | none => rw [hrec] at h; cases r0 <;> exact absurd h (by simp)
      | some cu =>
        rw [hrec] at h
        obtain ⟨c', u'⟩ := cu
        cases r0 with
        | inl cr =>
          simp only [Option.some.injEq, Prod.mk.injEq] at h
          rw [← h.1] at hx
          rcases List.mem_cons.mp hx with heq | hmem
          · exact ⟨t, List.mem_cons_self _ _, by rw [hstep, heq]⟩
          · obtain ⟨r, hrl, hrs⟩ := ih c' u' hrec x hmem
            exact ⟨r, List.mem_cons_of_mem _ hrl, hrs⟩
        | inr ur =>
          simp only [Option.some.injEq, Prod.mk.injEq] at h
          rw [← h.1] at hx
          obtain ⟨r, hrl, hrs⟩ := ih c' u' hrec x hx
          exact ⟨r, List.mem_cons_of_mem _ hrl, hrs⟩

/-- C4: a floating record that lacks a remote observation (so carries no
date), carries the sentinel time, lacks a (truthy) date, or whose date+time
fails to parse, is classified unconfirmed: it contributes nothing to the
sorted agenda but is retained in the queryable unconfirmed list. -/
theorem claim_C4 (floating fixedWD : List PyDict) (remote : List (JVal × PyDict))
    (t : PyDict) (ht : t ∈ floating)
    (res : List ConfirmedPred × List PyDict)
    (hres : refreshTimersModel floating fixedWD = some res)
    (hcond :
      (∃ cfg i, lookupRec cfg "date" = none ∧ lookupRec cfg "id" = some i ∧
        alookupJ remote i = none ∧ t = pyMerge cfg ((alookupJ remote i).getD []))
      ∨ lookupRec t "time" = some (.jstr unconfirmedSentinel)
      ∨ truthy (lookupRec t "date") = false
      ∨ (∃ dv tv, lookupRec t "date" = some dv ∧ truthy (some dv) = true ∧
          lookupRec t "time" = some tv ∧ tv ≠ .jstr unconfirmedSentinel ∧
          parseDateTime (dv.pyStr ++ " " ++ tv.pyStr) = none)) :
    classifyFloating t = some (Sum.inr t) ∧ t ∈ res.2 ∧
    ∀ c ∈ res.1, c.entry ≠ t := by
  have hcond' : lookupRec t "time" = some (.jstr unconfirmedSentinel)
      ∨ truthy (lookupRec t "date") = false
      ∨ (∃ dv tv, lookupRec t "date" = some dv ∧ truthy (some dv) = true ∧
          lookupRec t "time" = some tv ∧ tv ≠ .jstr unconfirmedSentinel ∧
          parseDateTime (dv.pyStr ++ " " ++ tv.pyStr) = none) := by
    rcases hcond with ⟨cfg, i, hdn, -, habs, heq⟩ | h | h | h
    · right; left
      rw [heq, habs]
      simp only [Option.getD_none, pyMerge_empty, hdn]
      rfl
    · exact Or.inl h
    · exact Or.inr (Or.inl h)
    · exact Or.inr (Or.inr h)
  have hunconf : classifyFloating t = some (Sum.inr t) := by
    rcases hcond' with h | h | h
    · exact classifyFloating_unconf_guard (Or.inl h)
    · exact classifyFloating_unconf_guard (Or.inr h)
    · obtain ⟨dv, tv, hd, htr, htv, hsent, hp⟩ := h
      exact classifyFloating_unconf_parse hd htv hsent htr hp
  -- no fixed record equal to `t` can be confirmed either
  have hfixnot : ∀ cr : ConfirmedPred, classifyFixed t ≠ some (Sum.inl cr) := by
    intro cr hfix
    cases hdl : lookupRec t "date" with
    | none =>
      unfold classifyFixed at hfix
      rw [hdl] at hfix
      cases htl : lookupRec t "time" <;> rw [htl] at hfix <;> simp at hfix
    | some dv =>
      cases htl : lookupRec t "time" with
      | none =>
        unfold classifyFixed at hfix
        rw [hdl, htl] at hfix
        simp at hfix
      | some tv =>
        have hun : classifyFixed t = some (Sum.inr t) := by
          rcases hcond' with h | h | h
          · exact classifyFixed_unconf_parse hdl h
              (parseDateTime_sentinel_fail dv.pyStr)
          · rw [hdl] at h
            cases dv with
            | jstr s =>
              have hs : s = "" := by simpa [truthy] using h
              subst hs
              exact classifyFixed_unconf_parse hdl htl
                (parseDateTime_empty_date tv.pyStr)
            | jother n =>
              exact classifyFixed_unconf_parse hdl htl
                (parseDateTime_jother_date n tv.pyStr)
          · obtain ⟨dv', tv', hd', -, htv', -, hp'⟩ := h
            have hdv : dv' = dv := Option.some.inj (hd'.symm.trans hdl)
            have htvv : tv' = tv := Option.some.inj (htv'.symm.trans htl)
            rw [hdv, htvv] at hp'
            exact classifyFixed_unconf_parse hdl htl hp'
        rw [hun] at hfix
        simp at hfix
  unfold refreshTimersModel refreshLists at hres
  cases h1 : classifyList classifyFloating floating with
  | none => rw [h1] at hres; simp at hres
  | some cu1 =>
    rw [h1] at hres
    obtain ⟨c1, u1⟩ := cu1
    cases h2 : classifyList classifyFixed fixedWD with
    | none => rw [h2] at hres; simp at hres
    | some cu2 =>
      rw [h2] at hres
      obtain ⟨c2, u2⟩ := cu2
      have hres' : res = ((c1 ++ c2).mergeSort predLeb, u1 ++ u2) := by
        simpa using hres.symm
      subst hres'
      refine ⟨hunconf, ?_, ?_⟩
      · exact List.mem_append_left _
          (classifyList_unconf_mem classifyFloating floating c1 u1 h1 t ht hunconf)
      · intro c hc heq
        have hc' : c ∈ c1 ++ c2 := List.mem_mergeSort.mp hc
        rcases List.mem_append.mp hc' with hcc | hcc
        · obtain ⟨r, -, hrs⟩ :=
            classifyList_conf_mem classifyFloating floating c1 u1 h1 c hcc
          have hrt : r = t := by rw [← heq, classifyFloating_inl_entry hrs]
          rw [hrt] at hrs
          rw [hunconf] at hrs
          simp at hrs
        · obtain ⟨r, -, hrs⟩ :=
            classifyList_conf_mem classifyFixed fixedWD c2 u2 h2 c hcc
          have hrt : r = t := by rw [← heq, classifyFixed_inl_entry hrs]
          rw [hrt] at hrs
          exact hfixnot c hrs

/-- C4 at a concrete record: sentinel time value. -/
theorem claim_C4_witness :
    lookupRec [("time", JVal.jstr "待確認"), ("date", JVal.jstr "2024-01-01")] "time"
      = some (JVal.jstr unconfirmedSentinel) ∧
    classifyFloating [("time", JVal.jstr "待確認"), ("date", JVal.jstr "2024-01-01")]
      = some (Sum.inr [("time", JVal.jstr "待確認"), ("date", JVal.jstr "2024-01-01")]) ∧
    [("time", JVal.jstr "待確認"), ("date", JVal.jstr "2024-01-01")]
      ∈ (([] : List ConfirmedPred),
          [[("time", JVal.jstr "待確認"), ("date", JVal.jstr "2024-01-01")]]).2 := by
  have h0 : refreshLists
      [[("time", JVal.jstr "待確認"), ("date", JVal.jstr "2024-01-01")]] []
      = some ([], [[("time", JVal.jstr "待確認"), ("date", JVal.jstr "2024-01-01")]]) := by
    decide
  have hres0 : refreshTimersModel
      [[("time", JVal.jstr "待確認"), ("date", JVal.jstr "2024-01-01")]] []
      = some (([] : List ConfirmedPred),
          [[("time", JVal.jstr "待確認"), ("date", JVal.jstr "2024-01-01")]]) := by
    unfold refreshTimersModel
    rw [h0]
    simp
  obtain ⟨hc1, hc2, -⟩ := claim_C4
    [[("time", JVal.jstr "待確認"), ("date", JVal.jstr "2024-01-01")]] [] []
    [("time", JVal.jstr "待確認"), ("date", JVal.jstr "2024-01-01")]
    (by decide)
    (([] : List ConfirmedPred),
      [[("time", JVal.jstr "待確認"), ("date", JVal.jstr "2024-01-01")]])
    hres0
    (Or.inr (Or.inl (by decide)))
  exact ⟨by decide, hc1, hc2⟩

end BotWorker
